import Mathlib

deriving instance DecidableEq for Except

namespace QCP

/-- State of the sliding window of src/sliding_window.rs: the slot vector
items, the ring indices head and tail, the atomic start, and the stored
size (kept separately from the vector length, as in the source). -/
structure Win (T : Type) where
  items : List (Option T)
  head : Nat
  tail : Nat
  start : Nat
  size : Nat
deriving DecidableEq

/-- Constructor SlidingWindow::new: all slots empty, head 0, tail 1, start 0. -/
def new {T : Type} (window_size : Nat) : Win T :=
  { items := List.replicate window_size none
    head := 0
    tail := 1
    start := 0
    size := window_size }

/-- Slot index for key loc, as computed in SlidingWindow::insert:
((loc - start) + head) mod items.len(). -/
def slotOf {T : Type} (w : Win T) (loc : Nat) : Nat :=
  ((loc - w.start) + w.head) % w.items.length

/-- Error values of SlidingWindow::insert. -/
inductive InsErr where
  | tooOld
  | duplicate
deriving DecidableEq

/-- SlidingWindow::insert under sequential semantics: the result none models
the cooperative waiting loop spinning forever on a key at or beyond
start + size (nothing else can advance start meanwhile). -/
def insert {T : Type} (w : Win T) (loc : Nat) (v : T) : Option (Except InsErr (Win T)) :=
  if loc < w.start then some (.error .tooOld)
  else if w.start + w.size ≤ loc then none
  else
    let index := slotOf w loc
    if (w.items.getD index none).isSome then some (.error .duplicate)
    else
      some (.ok { w with
        items := w.items.set index (some v)
        tail := if w.tail ≤ index then (index + 1) % w.items.length else w.tail })

/-- Exit test of the head-advancing loop inside SlidingWindow::inner_remove:
stop once the new head equals tail or holds a value. -/
def slideStop {T : Type} (items : List (Option T)) (tail i : Nat) : Bool :=
  i == tail || (items.getD i none).isSome

/-- Head-advancing loop of SlidingWindow::inner_remove: repeatedly step the
head by one (mod n) until the exit test holds, returning the new head and
the number of steps taken; the fuel only bounds the iteration and n steps
always reach the exit test. -/
def slideLoop {T : Type} (items : List (Option T)) (tail n : Nat) : Nat → Nat → Nat × Nat
  | 0, h => (h, 0)
  | fuel+1, h =>
    let h1 := (h + 1) % n
    if slideStop items tail h1 then (h1, 1)
    else
      let r := slideLoop items tail n fuel h1
      (r.1, r.2 + 1)

/-- Result of SlidingWindow::inner_remove; crash models the out-of-bounds
panic of the unchecked vector index relative_loc + head. -/
inductive RemOut (T : Type) where
  | crash
  | missing
  | removed (v : T) (w : Win T)
deriving DecidableEq

/-- SlidingWindow::inner_remove: the index is relative_loc + head with no
modulo; when the removed slot is the head slot, head and start advance via
the sliding loop. -/
def inner_remove {T : Type} (w : Win T) (relative_loc : Nat) : RemOut T :=
  let index := relative_loc + w.head
  if index < w.items.length then
    match w.items.getD index none with
    | none => .missing
    | some v =>
      let items1 := w.items.set index none
      if index = w.head then
        let r := slideLoop items1 w.tail w.items.length w.items.length w.head
        .removed v { w with items := items1, head := r.1, start := w.start + r.2 }
      else
        .removed v { w with items := items1 }
  else .crash

/-- Error values of SlidingWindow::remove. -/
inductive RemErr where
  | tooOldE
  | tooNewE
  | missingE
deriving DecidableEq

/-- Result of a computation that can panic. -/
inductive POut (A : Type) where
  | crash
  | good (a : A)
deriving DecidableEq

/-- SlidingWindow::remove: range checks against [start, start + size), then
inner_remove on the offset. -/
def remove {T : Type} (w : Win T) (loc : Nat) : POut (Except RemErr (T × Win T)) :=
  if loc < w.start then .good (.error .tooOldE)
  else if w.start + w.size ≤ loc then .good (.error .tooNewE)
  else
    match inner_remove w (loc - w.start) with
    | .crash => .crash
    | .missing => .good (.error .missingE)
    | .removed v w1 => .good (.ok (v, w1))

/-- SlidingWindow::pop under sequential semantics: none models the yield
loop spinning forever while the head slot stays empty. -/
def pop {T : Type} (w : Win T) : Option (T × Win T) :=
  match inner_remove w 0 with
  | .removed v w1 => some (v, w1)
  | _ => none

/-- Scan loop of SlidingWindow::find_first: walk cur from head until tail,
return cur + start at the first occupied slot satisfying the predicate. -/
def ffLoop {T : Type} (items : List (Option T)) (pred : T → Bool) (tail size start : Nat) :
    Nat → Nat → Option Nat
  | 0, _ => none
  | fuel+1, cur =>
    if cur = tail then none
    else
      match items.getD cur none with
      | some v =>
        if pred v then some (cur + start)
        else ffLoop items pred tail size start fuel ((cur + 1) % size)
      | none => ffLoop items pred tail size start fuel ((cur + 1) % size)

/-- SlidingWindow::find_first. -/
def find_first {T : Type} (w : Win T) (pred : T → Bool) : Option Nat :=
  ffLoop w.items pred w.tail w.size w.start w.size w.head

/-- SlidingWindow::window: the snapshot (start, start + size). -/
def window {T : Type} (w : Win T) : Nat × Nat :=
  (w.start, w.start + w.size)

/-- Public operations of the sliding window. -/
inductive WOp (T : Type) where
  | insertOp (k : Nat) (v : T)
  | removeOp (k : Nat)
  | popOp
  | findOp (p : T → Bool)
  | windowOp

/-- Window state after one public operation; the state is unchanged when
the operation fails, blocks or panics before mutating. -/
def applyOp {T : Type} (w : Win T) (op : WOp T) : Win T :=
  match op with
  | .insertOp k v =>
    match insert w k v with
    | some (.ok w1) => w1
    | _ => w
  | .removeOp k =>
    match remove w k with
    | .good (.ok (_, w1)) => w1
    | _ => w
  | .popOp =>
    match pop w with
    | some (_, w1) => w1
    | _ => w
  | .findOp _ => w
  | .windowOp => w

/-- Wire message kinds of the flatbuffers schema; invalid stands for a
buffer that decodes to none of the three valid kinds. -/
inductive MsgType where
  | connect
  | acknowledge
  | message
  | invalid
deriving DecidableEq

/-- Decoded wire message: kind, sequence number and optional payload. -/
structure Msg where
  mtype : MsgType
  seq : Nat
  payload : Option (List Nat)
deriving DecidableEq

/-- MAX_PAYLOAD_SIZE of src/bbr_transport.rs. -/
def MAX_PAYLOAD_SIZE : Nat := 1452

/-- One iteration of the receiver ingest task spawned in Receiver::listen,
fed one decoded datagram. It returns the new window and the sequence
numbers of the acknowledgements sent; crash models the panics of the task
(non-Message kind, missing payload); none models blocking forever inside
the window insert. -/
def ingest_step (w : Win (List Nat)) (m : Msg) : Option (POut (Win (List Nat) × List Nat)) :=
  if m.mtype ≠ .message then some .crash
  else
    if m.seq < (window w).1 then some (.good (w, []))
    else
      match m.payload with
      | none => some .crash
      | some payload =>
        match insert w m.seq payload with
        | none => none
        | some r =>
          match r with
          | .ok w1 => some (.good (w1, [m.seq]))
          | .error _ => some (.good (w, [m.seq]))

/-- One iteration of the sender ACK task spawned in Sender::connect, for
the case recv_from returned a datagram: a non-Acknowledge kind panics, and
window.remove(seq).expect panics whenever the remove fails. -/
def ack_task_step (w : Win (Nat × Msg)) (m : Msg) : POut (Win (Nat × Msg)) :=
  if m.mtype ≠ .acknowledge then .crash
  else
    match remove w m.seq with
    | .good (.ok (_, w1)) => .good w1
    | _ => .crash

/-- Chunking loop of slice::chunks(MAX_PAYLOAD_SIZE) as iterated by
Sender::write_all; the fuel is instantiated with the list length, which
always suffices since every round consumes at least one element. -/
def chunksGo : Nat → List Nat → List (List Nat)
  | _, [] => []
  | 0, _ :: _ => []
  | fuel+1, x :: rest =>
    ((x :: rest).take MAX_PAYLOAD_SIZE) :: chunksGo fuel ((x :: rest).drop MAX_PAYLOAD_SIZE)

/-- Chunks of at most MAX_PAYLOAD_SIZE bytes, in input order. -/
def chunksOf (bytes : List Nat) : List (List Nat) :=
  chunksGo bytes.length bytes

/-- Data messages Sender::write_all builds for the chunk list cs when its
running sequence number starts at seq. -/
def msgsFrom (seq : Nat) : List (List Nat) → List Msg
  | [] => []
  | c :: cs => ⟨.message, seq, some c⟩ :: msgsFrom (seq + 1) cs

/-- Per-chunk loop of Sender::write_all: build the message for the current
seq_num, send it, insert (now, message) into the window at key seq_num with
the result discarded, and bump seq_num; none models blocking inside the
window insert. Returns the sent messages, the final seq_num and the final
window. -/
def write_all_go (now : Nat) : List (List Nat) → Nat → Win (Nat × Msg) →
    Option (List Msg × Nat × Win (Nat × Msg))
  | [], seq, w => some ([], seq, w)
  | c :: cs, seq, w =>
    let m : Msg := ⟨.message, seq, some c⟩
    match insert w seq (now, m) with
    | none => none
    | some r =>
      let w1 := match r with
        | .ok w2 => w2
        | .error _ => w
      match write_all_go now cs (seq + 1) w1 with
      | none => none
      | some (ms, seq2, w2) => some (m :: ms, seq2, w2)

/-- Sender::write_all on a byte list. -/
def write_all (now seq : Nat) (w : Win (Nat × Msg)) (bytes : List Nat) :
    Option (List Msg × Nat × Win (Nat × Msg)) :=
  write_all_go now (chunksOf bytes) seq w

/-- Outcome of one recv_from attempt during the handshake: a WouldBlock
timeout, a fatal error of some other kind k, or a decoded datagram. -/
inductive RecvO where
  | wouldBlock
  | fatal (k : Nat)
  | got (m : Msg)
deriving DecidableEq

/-- Errors surfaced by Sender::connect. -/
inductive ConnErr where
  | ioErr (k : Nat)
  | timeoutAborted
  | notAck
  | wrongSeq
deriving DecidableEq

/-- Handshake of Sender::connect after sending Connect(0): the three-attempt
receive loop of the source unrolled over the three attempt outcomes, then
the Acknowledge checks; ok 0 is the connected sender carrying its initial
seq_num 0. -/
def sender_connect (r0 r1 r2 : RecvO) : Except ConnErr Nat :=
  let check : Msg → Except ConnErr Nat := fun m =>
    if m.mtype ≠ .acknowledge then .error .notAck
    else if m.seq ≠ 0 then .error .wrongSeq
    else .ok 0
  match r0 with
  | .fatal k => .error (.ioErr k)
  | .got m => check m
  | .wouldBlock =>
    match r1 with
    | .fatal k => .error (.ioErr k)
    | .got m => check m
    | .wouldBlock =>
      match r2 with
      | .fatal k => .error (.ioErr k)
      | .got m => check m
      | .wouldBlock => .error .timeoutAborted

/-- Transport::read on the connected Sender. -/
def sender_read (_w : Win (Nat × Msg)) (_buf : List Nat) : POut (Nat × List Nat) :=
  .crash

/-- Transport::write_all on the listening Receiver. -/
def receiver_write_all (_w : Win (List Nat)) (_buf : List Nat) : POut Unit :=
  .crash

lemma insert_unfold {T : Type} (w : Win T) (k : Nat) (v : T) :
    insert w k v =
      if k < w.start then some (.error .tooOld)
      else if w.start + w.size ≤ k then none
      else if (w.items.getD (slotOf w k) none).isSome then some (.error .duplicate)
      else some (.ok { w with
        items := w.items.set (slotOf w k) (some v)
        tail := if w.tail ≤ slotOf w k then (slotOf w k + 1) % w.items.length else w.tail }) := rfl

lemma inner_remove_unfold {T : Type} (w : Win T) (rel : Nat) :
    inner_remove w rel =
      if rel + w.head < w.items.length then
        match w.items.getD (rel + w.head) none with
        | none => RemOut.missing
        | some v =>
          if rel + w.head = w.head then
            RemOut.removed v { w with
              items := w.items.set (rel + w.head) none
              head := (slideLoop (w.items.set (rel + w.head) none) w.tail
                w.items.length w.items.length w.head).1
              start := w.start + (slideLoop (w.items.set (rel + w.head) none) w.tail
                w.items.length w.items.length w.head).2 }
          else RemOut.removed v { w with items := w.items.set (rel + w.head) none }
      else RemOut.crash := rfl

lemma insert_ok_inv {T : Type} {w : Win T} {k : Nat} {v : T} {w1 : Win T}
    (h : insert w k v = some (.ok w1)) :
    w1.start = w.start ∧ w1.head = w.head ∧ w1.size = w.size ∧
    w1.items = w.items.set (slotOf w k) (some v) ∧
    w.start ≤ k ∧ k < w.start + w.size ∧
    w.items.getD (slotOf w k) none = none := by
  rw [insert_unfold] at h
  split at h
  · simp at h
  · split at h
    · simp at h
    · split at h
      · simp at h
      · rename_i h1 h2 h3
        simp only [Option.some.injEq, Except.ok.injEq] at h
        subst h
        refine ⟨rfl, rfl, rfl, rfl, by omega, by omega, ?_⟩
        cases hx : w.items.getD (slotOf w k) none with
        | none => rfl
        | some y => rw [hx] at h3; simp at h3

lemma inner_remove_start_le {T : Type} {w : Win T} {rel : Nat} {v : T} {w1 : Win T}
    (h : inner_remove w rel = .removed v w1) : w.start ≤ w1.start := by
  rw [inner_remove_unfold] at h
  split at h
  · split at h
    · exact absurd h (by simp)
    · split at h
      · simp only [RemOut.removed.injEq] at h
        rw [← h.2]
        exact Nat.le_add_right _ _
      · simp only [RemOut.removed.injEq] at h
        rw [← h.2]
  · exact absurd h (by simp)

lemma remove_ok_start_le {T : Type} {w : Win T} {k : Nat} {v : T} {w1 : Win T}
    (h : remove w k = .good (.ok (v, w1))) : w.start ≤ w1.start := by
  unfold remove at h
  split at h
  · simp at h
  · split at h
    · simp at h
    · cases hir : inner_remove w (k - w.start) with
      | crash => rw [hir] at h; simp at h
      | missing => rw [hir] at h; simp at h
      | removed v2 w2 =>
        rw [hir] at h
        simp only [POut.good.injEq, Except.ok.injEq, Prod.mk.injEq] at h
        rw [← h.2]
        exact inner_remove_start_le hir

lemma applyOp_start_le {T : Type} (w : Win T) (op : WOp T) :
    w.start ≤ (applyOp w op).start := by
  cases op with
  | insertOp k v =>
    simp only [applyOp]
    cases h : insert w k v with
    | none => exact Nat.le_refl _
    | some r =>
      cases r with
      | error e => exact Nat.le_refl _
      | ok w1 => exact Nat.le_of_eq (insert_ok_inv h).1.symm
  | removeOp k =>
    simp only [applyOp]
    cases h : remove w k with
    | crash => exact Nat.le_refl _
    | good r =>
      cases r with
      | error e => exact Nat.le_refl _
      | ok p =>
        cases p with
        | mk v w1 => exact remove_ok_start_le h
  | popOp =>
    simp only [applyOp, pop]
    cases h : inner_remove w 0 with
    | crash => exact Nat.le_refl _
    | missing => exact Nat.le_refl _
    | removed v w1 => exact inner_remove_start_le h
  | findOp p => exact Nat.le_refl _
  | windowOp => exact Nat.le_refl _

/-- C9: no public operation of the sliding window ever decreases start, so
along any sequence of operations the observed start values are
monotonically non-decreasing. -/
theorem C9_start_monotone {T : Type} (ops : List (WOp T)) (w : Win T) :
    w.start ≤ (List.foldl applyOp w ops).start := by
  induction ops generalizing w with
  | nil => exact Nat.le_refl _
  | cons op ops ih =>
    exact Nat.le_trans (applyOp_start_le w op) (ih (applyOp w op))

/-- Window of the C4 scenario: capacity 4, insert at keys 0 and 1, then
remove key 0, which advances head to 1 and start to 1. -/
def c4win : Win Nat :=
  applyOp (applyOp (applyOp (new 4) (.insertOp 0 10)) (.insertOp 1 11)) (.removeOp 0)

/-- C4: the claim says remove never panics for an in-window key and reports
Missing on an empty slot. In the reachable state c4win (start 1, head 1)
the in-window key 4 makes inner_remove index the 4-slot vector at
(4 - start) + head = 4 with no modulo, an out-of-bounds panic. -/
theorem C4_remove_out_of_bounds :
    c4win = ⟨[none, some 11, none, none], 1, 2, 1, 4⟩ ∧
    c4win.start ≤ 4 ∧ 4 < c4win.start + c4win.size ∧
    remove c4win 4 = .crash := by decide

/-- Window of the C3 scenario: capacity 4, insert at keys 0 and 1, then
remove key 0; the only remaining entry holds 11 at key 1, in the head slot
(index 1) while start is 1. -/
def c3win : Win Nat :=
  applyOp (applyOp (applyOp (new 4) (.insertOp 0 10)) (.insertOp 1 11)) (.removeOp 0)

/-- C3: the claim says find_first returns the key (start plus the slot
offset from head) of the first occupied matching slot, here 1 + 0 = 1 for
the entry 11. The code instead returns slot + start = 2; key 2 is not even
removable (its slot is empty) while key 1 is, so the retransmit branch's
subsequent remove(found).expect fails. -/
theorem C3_find_first_wrong_key :
    c3win.head = 1 ∧ c3win.start = 1 ∧
    c3win.items.getD c3win.head none = some 11 ∧
    c3win.start + ((c3win.head - c3win.head) % c3win.size) = 1 ∧
    find_first c3win (fun _ => true) = some 2 ∧
    remove c3win 2 = .good (.error .missingE) ∧
    remove c3win 1 = .good (.ok (11, ⟨[none, none, none, none], 2, 2, 2, 4⟩)) := by decide

/-- Sender window of the C1 scenario: capacity 4 holding one in-flight
entry at key 0. -/
def ackwin : Win (Nat × Msg) :=
  applyOp (new 4) (.insertOp 0 (0, ⟨.message, 0, some [1]⟩))

/-- C1: the claim says an Acknowledge whose seq_num is no longer in the
window is silently tolerated. Processing Acknowledge(0) once removes the
entry; processing the same Acknowledge(0) again makes window.remove fail,
and the .expect in the ACK branch panics the task instead. -/
theorem C1_duplicate_ack_crashes :
    ack_task_step ackwin ⟨.acknowledge, 0, none⟩ =
      .good ⟨[none, none, none, none], 1, 1, 1, 4⟩ ∧
    ack_task_step ⟨[none, none, none, none], 1, 1, 1, 4⟩ ⟨.acknowledge, 0, none⟩ = .crash ∧
    remove (⟨[none, none, none, none], 1, 1, 1, 4⟩ : Win (Nat × Msg)) 0 =
      .good (.error .tooOldE) := by decide

/-- C10: read on the connected Sender and write_all on the listening
Receiver panic for every window state and every buffer. -/
theorem C10_unidirectional :
    (∀ (w : Win (Nat × Msg)) (buf : List Nat), sender_read w buf = .crash) ∧
    (∀ (w : Win (List Nat)) (buf : List Nat), receiver_write_all w buf = .crash) :=
  ⟨fun _ _ => rfl, fun _ _ => rfl⟩

/-- Receiver window of the C2 counterexample: capacity 4 already holding
payload [7] at key 0. -/
def dupwin : Win (List Nat) := applyOp (new 4) (.insertOp 0 [7])

/-- C2 counterexample: a second data message for key 0 arrives while key 0
is still buffered; the insert fails with Duplicate, yet the ingest step
still sends Acknowledge(0), refuting that ACKs are sent only after a
successful insert. -/
theorem C2_counterexample :
    ingest_step dupwin ⟨.message, 0, some [7]⟩ = some (.good (dupwin, [0])) ∧
    insert dupwin 0 [7] = some (.error .duplicate) := by decide

/-- Window of the C5 counterexample: capacity 2 with one value at key 0. -/
def popwin : Win Nat := applyOp (new 2) (.insertOp 0 7)

/-- C5 counterexample: before the pop, the slot immediately following the
head slot is already empty, so the claim requires start to advance past it
(to at least 2); the code stops the advance at the tail marker and pop
leaves start at exactly 1. -/
theorem C5_counterexample :
    popwin.items.getD ((popwin.head + 1) % popwin.size) none = none ∧
    pop popwin = some (7, ⟨[none, none], 1, 1, 1, 2⟩) ∧
    (⟨[none, none], 1, 1, 1, 2⟩ : Win Nat).start = popwin.start + 1 := by decide

/-- C6 counterexample: inserting at key 1 into a fresh capacity-2 window
computes slot 1 ≥ tail 1, and the code sets the tail marker to
(1 + 1) mod 2 = 0, whereas max(tail, slot+1 mod N) = max(1, 0) = 1. -/
theorem C6_counterexample :
    insert (new 2 : Win Nat) 1 5 = some (.ok ⟨[none, some 5], 0, 0, 0, 2⟩) ∧
    slotOf (new 2 : Win Nat) 1 = 1 ∧
    Nat.max (new 2 : Win Nat).tail ((slotOf (new 2 : Win Nat) 1 + 1) % (new 2 : Win Nat).size)
      = 1 := by decide

lemma getD_set_self {A : Type} (a d : A) :
    ∀ (l : List A) (i : Nat), i < l.length → (l.set i a).getD i d = a
  | [], i, h => by simp at h
  | _ :: _, 0, _ => rfl
  | x :: xs, i+1, h => by
    have ih := getD_set_self a d xs i (by simpa using h)
    simpa [List.set, List.getD] using ih

lemma getD_set_of_ne {A : Type} (a d : A) :
    ∀ (l : List A) (i j : Nat), i ≠ j → (l.set i a).getD j d = l.getD j d
  | [], _, _, _ => by simp
  | x :: xs, 0, 0, h => absurd rfl h
  | x :: xs, 0, j+1, _ => rfl
  | x :: xs, i+1, 0, _ => rfl
  | x :: xs, i+1, j+1, h => by
    have ih := getD_set_of_ne a d xs i j (by omega)
    simpa [List.set, List.getD] using ih

/-- C6 amended: insert(k, v) fails TooOld exactly when k < start; with
start ≤ k it blocks while start + N ≤ k; once k < start + N it fails
Duplicate exactly when the slot ((k - start) + head) mod N is occupied,
and on success writes v there and sets the tail marker to
(slot + 1) mod N when tail ≤ slot, leaving it unchanged otherwise. -/
theorem C6_amended {T : Type} (w : Win T) (k : Nat) (v : T) :
    (insert w k v = some (.error .tooOld) ↔ k < w.start) ∧
    (w.start + w.size ≤ k → insert w k v = none) ∧
    (w.start ≤ k → k < w.start + w.size →
      ((insert w k v = some (.error .duplicate)) ↔ (w.items.getD (slotOf w k) none).isSome) ∧
      (w.items.getD (slotOf w k) none = none →
        insert w k v = some (.ok { w with
          items := w.items.set (slotOf w k) (some v)
          tail := if w.tail ≤ slotOf w k then (slotOf w k + 1) % w.items.length
            else w.tail }))) := by
  refine ⟨?_, ?_, ?_⟩
  · constructor
    · intro h
      by_cases hk : k < w.start
      · exact hk
      · exfalso
        rw [insert_unfold, if_neg hk] at h
        split at h
        · simp at h
        · split at h
          · simp at h
          · simp at h
    · intro hk
      rw [insert_unfold, if_pos hk]
  · intro hb
    rw [insert_unfold, if_neg (by omega), if_pos hb]
  · intro ha hb
    constructor
    · rw [insert_unfold, if_neg (by omega), if_neg (by omega)]
      by_cases h3 : (w.items.getD (slotOf w k) none).isSome
      · rw [if_pos h3]
        exact iff_of_true rfl h3
      · rw [if_neg h3]
        exact iff_of_false (by simp) h3
    · intro hempty
      have h3 : ¬ (w.items.getD (slotOf w k) none).isSome = true := by
        rw [hempty]; simp
      rw [insert_unfold, if_neg (by omega), if_neg (by omega), if_neg h3]

/-- C6 witness: inserting 9 at key 2 into a fresh capacity-4 window
succeeds and produces exactly the window the amended description gives. -/
theorem C6_witness :
    insert (new 4 : Win Nat) 2 9 = some (.ok { (new 4 : Win Nat) with
      items := (new 4 : Win Nat).items.set (slotOf (new 4 : Win Nat) 2) (some 9)
      tail := if (new 4 : Win Nat).tail ≤ slotOf (new 4 : Win Nat) 2
        then (slotOf (new 4 : Win Nat) 2 + 1) % (new 4 : Win Nat).items.length
        else (new 4 : Win Nat).tail }) :=
  ((C6_amended (new 4) 2 9).2.2 (by decide) (by decide)).2 (by decide)

/-- C2 amended: a data message below start is dropped with no ACK and no
state change; any other data message inside the window is acknowledged
after the insert attempt whether or not the insert succeeded (an in-window
duplicate is re-ACKed), and after the step the window holds a payload at
that key. -/
theorem C2_amended (w : Win (List Nat)) (m : Msg) (p : List Nat)
    (hlen : w.items.length = w.size) (hm : m.mtype = .message) (hp : m.payload = some p) :
    (m.seq < w.start → ingest_step w m = some (.good (w, []))) ∧
    (w.start ≤ m.seq → m.seq < w.start + w.size →
      ∃ w1, ingest_step w m = some (.good (w1, [m.seq])) ∧
        (w1.items.getD (slotOf w m.seq) none).isSome ∧
        w1.start = w.start ∧ w1.head = w.head ∧ w1.items.length = w.items.length) := by
  constructor
  · intro hlt
    simp only [ingest_step, hm, hp, window]
    rw [if_neg (by simp), if_pos hlt]
  · intro ha hb
    have hsz : 0 < w.size := by omega
    have hidx : slotOf w m.seq < w.items.length := by
      have h0 : 0 < w.items.length := by omega
      exact Nat.mod_lt _ h0
    cases hocc : w.items.getD (slotOf w m.seq) none with
    | some x =>
      have hdup : insert w m.seq p = some (.error .duplicate) := by
        rw [insert_unfold, if_neg (by omega), if_neg (by omega),
          if_pos (by rw [hocc]; rfl)]
      refine ⟨w, ?_, by rw [hocc]; rfl, rfl, rfl, rfl⟩
      simp only [ingest_step, hm, hp, window]
      rw [if_neg (by simp), if_neg (by omega), hdup]
    | none =>
      have h3 : ¬ (w.items.getD (slotOf w m.seq) none).isSome = true := by
        rw [hocc]; simp
      have hins : insert w m.seq p = some (.ok { w with
          items := w.items.set (slotOf w m.seq) (some p)
          tail := if w.tail ≤ slotOf w m.seq then (slotOf w m.seq + 1) % w.items.length
            else w.tail }) := by
        rw [insert_unfold, if_neg (by omega), if_neg (by omega), if_neg h3]
      refine ⟨{ w with
          items := w.items.set (slotOf w m.seq) (some p)
          tail := if w.tail ≤ slotOf w m.seq then (slotOf w m.seq + 1) % w.items.length
            else w.tail }, ?_, ?_, rfl, rfl, by simp⟩
      · simp only [ingest_step, hm, hp, window]
        rw [if_neg (by simp), if_neg (by omega), hins]
      · show ((w.items.set (slotOf w m.seq) (some p)).getD (slotOf w m.seq) none).isSome = true
        rw [getD_set_self _ _ _ _ hidx]
        rfl

/-- C2 witness: a fresh capacity-4 receiver window accepts a data message
at key 2 and acknowledges it, leaving the payload buffered at key 2. -/
theorem C2_witness :
    ∃ w1, ingest_step (new 4 : Win (List Nat)) ⟨.message, 2, some [9]⟩ =
        some (.good (w1, [2])) ∧
      (w1.items.getD (slotOf (new 4 : Win (List Nat)) 2) none).isSome := by
  obtain ⟨w1, h1, h2, -, -, -⟩ :=
    (C2_amended (new 4) ⟨.message, 2, some [9]⟩ [9] (by decide) rfl rfl).2
      (by decide) (by decide)
  exact ⟨w1, h1, h2⟩

/-- C8: the handshake sends Connect(0) and then behaves as claimed: three
WouldBlock attempts give the timeout error; the first non-WouldBlock
outcome decides the result — a fatal receive error is returned as is, a
reply that is not Acknowledge(0) yields a handshake-rejection error
(notAck or wrongSeq), and only a reply decoding as Acknowledge(0) yields a
connected sender (with initial seq_num 0). -/
theorem C8_connect_spec (r0 r1 r2 : RecvO) :
    ((r0 = .wouldBlock ∧ r1 = .wouldBlock ∧ r2 = .wouldBlock) →
      sender_connect r0 r1 r2 = .error .timeoutAborted) ∧
    (∀ k, r0 = .fatal k → sender_connect r0 r1 r2 = .error (.ioErr k)) ∧
    (∀ k, r0 = .wouldBlock → r1 = .fatal k → sender_connect r0 r1 r2 = .error (.ioErr k)) ∧
    (∀ k, r0 = .wouldBlock → r1 = .wouldBlock → r2 = .fatal k →
      sender_connect r0 r1 r2 = .error (.ioErr k)) ∧
    (∀ m, (r0 = .got m ∨ (r0 = .wouldBlock ∧ r1 = .got m) ∨
        (r0 = .wouldBlock ∧ r1 = .wouldBlock ∧ r2 = .got m)) →
      (m.mtype = .acknowledge → m.seq = 0 → sender_connect r0 r1 r2 = .ok 0) ∧
      (m.mtype ≠ .acknowledge → sender_connect r0 r1 r2 = .error .notAck) ∧
      (m.mtype = .acknowledge → m.seq ≠ 0 → sender_connect r0 r1 r2 = .error .wrongSeq)) ∧
    (∀ s, sender_connect r0 r1 r2 = .ok s → s = 0 ∧ ∃ m,
      (r0 = .got m ∨ (r0 = .wouldBlock ∧ r1 = .got m) ∨
        (r0 = .wouldBlock ∧ r1 = .wouldBlock ∧ r2 = .got m)) ∧
      m.mtype = .acknowledge ∧ m.seq = 0) := by
  refine ⟨?_, ?_, ?_, ?_, ?_, ?_⟩
  · rintro ⟨h0, h1, h2⟩
    subst h0; subst h1; subst h2; rfl
  · rintro k h0
    subst h0; rfl
  · rintro k h0 h1
    subst h0; subst h1; rfl
  · rintro k h0 h1 h2
    subst h0; subst h1; subst h2; rfl
  · intro m hcase
    have hgot : sender_connect r0 r1 r2 =
        (if m.mtype ≠ .acknowledge then .error .notAck
         else if m.seq ≠ 0 then .error .wrongSeq else .ok 0) := by
      rcases hcase with h0 | ⟨h0, h1⟩ | ⟨h0, h1, h2⟩
      · subst h0; rfl
      · subst h0; subst h1; rfl
      · subst h0; subst h1; subst h2; rfl
    refine ⟨?_, ?_, ?_⟩
    · intro hm hs
      rw [hgot, if_neg (by simp [hm]), if_neg (by simp [hs])]
    · intro hm
      rw [hgot, if_pos hm]
    · intro hm hs
      rw [hgot, if_neg (by simp [hm]), if_pos hs]
  · intro s hs
    cases r0 with
    | fatal k => simp [sender_connect] at hs
    | got m =>
      simp only [sender_connect] at hs
      split at hs
      · simp at hs
      · split at hs
        · simp at hs
        · rename_i hm hseq
          injection hs with h0
          exact ⟨h0.symm, m, Or.inl rfl, not_not.mp hm, not_not.mp hseq⟩
    | wouldBlock =>
      cases r1 with
      | fatal k => simp [sender_connect] at hs
      | got m =>
        simp only [sender_connect] at hs
        split at hs
        · simp at hs
        · split at hs
          · simp at hs
          · rename_i hm hseq
            injection hs with h0
            exact ⟨h0.symm, m, Or.inr (Or.inl ⟨rfl, rfl⟩), not_not.mp hm, not_not.mp hseq⟩
      | wouldBlock =>
        cases r2 with
        | fatal k => simp [sender_connect] at hs
        | wouldBlock => simp [sender_connect] at hs
        | got m =>
          simp only [sender_connect] at hs
          split at hs
          · simp at hs
          · split at hs
            · simp at hs
            · rename_i hm hseq
              injection hs with h0
              exact ⟨h0.symm, m, Or.inr (Or.inr ⟨rfl, rfl, rfl⟩),
                not_not.mp hm, not_not.mp hseq⟩

/-- C8 witness: the first attempt times out with WouldBlock, the second
attempt returns Acknowledge(0), and the handshake succeeds with the
initial seq_num 0. -/
theorem C8_witness :
    sender_connect .wouldBlock (.got ⟨.acknowledge, 0, none⟩) .wouldBlock = .ok 0 := by
  have h := (C8_connect_spec .wouldBlock (.got ⟨.acknowledge, 0, none⟩) .wouldBlock).2.2.2.2.1
    ⟨.acknowledge, 0, none⟩ (Or.inr (Or.inl ⟨rfl, rfl⟩))
  exact h.1 rfl rfl

lemma or_false_right {a b : Bool} (h : (a || b) = false) : b = false := by
  cases a <;> cases b <;> simp_all

lemma isSome_false_eq_none {A : Type} {o : Option A} (h : o.isSome = false) : o = none := by
  cases o <;> simp_all

lemma add_mod_ne_self {h i n : Nat} (hh : h < n) (hi1 : 0 < i) (hi2 : i < n) :
    (h + i) % n ≠ h := by
  intro heq
  have h2 : (h + i) % n = h % n := by rw [heq, Nat.mod_eq_of_lt hh]
  have h3 : h + i ≡ h + 0 [MOD n] := by simpa using h2
  have h4 : i ≡ 0 [MOD n] := Nat.ModEq.add_left_cancel' h h3
  have h5 : i % n = 0 := by simpa [Nat.ModEq] using h4
  rw [Nat.mod_eq_of_lt hi2] at h5
  omega

lemma slideLoop_spec {T : Type} (items : List (Option T)) (tail n : Nat) :
    ∀ (fuel h : Nat), (∃ j, 1 ≤ j ∧ j ≤ fuel ∧ slideStop items tail ((h + j) % n) = true) →
      1 ≤ (slideLoop items tail n fuel h).2 ∧
      (slideLoop items tail n fuel h).2 ≤ fuel ∧
      (slideLoop items tail n fuel h).1 = (h + (slideLoop items tail n fuel h).2) % n ∧
      slideStop items tail (slideLoop items tail n fuel h).1 = true ∧
      ∀ i, 1 ≤ i → i < (slideLoop items tail n fuel h).2 →
        slideStop items tail ((h + i) % n) = false := by
  intro fuel
  induction fuel with
  | zero =>
    rintro h ⟨j, hj1, hj2, -⟩
    omega
  | succ fuel ih =>
    rintro h ⟨j, hj1, hj2, hstop⟩
    by_cases hc : slideStop items tail ((h + 1) % n) = true
    · have hred : slideLoop items tail n (fuel+1) h = ((h + 1) % n, 1) := by
        simp only [slideLoop]
        rw [if_pos hc]
      rw [hred]
      exact ⟨Nat.le_refl 1, by omega, rfl, hc, fun i hi1 hi2 => by omega⟩
    · have hred : slideLoop items tail n (fuel+1) h =
          ((slideLoop items tail n fuel ((h + 1) % n)).1,
           (slideLoop items tail n fuel ((h + 1) % n)).2 + 1) := by
        simp only [slideLoop]
        rw [if_neg hc]
      have hj2' : 2 ≤ j := by
        by_contra hlt
        have hj : j = 1 := by omega
        subst hj
        exact hc hstop
      have hshift : ((h + 1) % n + (j - 1)) % n = (h + j) % n := by
        rw [Nat.mod_add_mod]
        congr 1
        omega
      have hrec := ih ((h + 1) % n) ⟨j - 1, by omega, by omega, by rw [hshift]; exact hstop⟩
      obtain ⟨ha1, ha2, ha3, ha4, ha5⟩ := hrec
      rw [hred]
      refine ⟨by omega, by omega, ?_, ha4, ?_⟩
      · rw [ha3, Nat.mod_add_mod]
        congr 1
        omega
      · intro i hi1 hi2
        by_cases hione : i = 1
        · subst hione
          simpa using hc
        · have h5 := ha5 (i - 1) (by omega) (by simp at hi2; omega)
          have heq : ((h + 1) % n + (i - 1)) % n = (h + i) % n := by
            rw [Nat.mod_add_mod]
            congr 1
            omega
          rw [heq] at h5
          exact h5

lemma slideStop_exists {T : Type} (items : List (Option T)) (tail n h : Nat)
    (hn : 0 < n) (htail : tail < n) (hh : h < n) :
    ∃ j, 1 ≤ j ∧ j ≤ n ∧ slideStop items tail ((h + j) % n) = true := by
  refine ⟨(tail + n - h - 1) % n + 1, by omega, ?_, ?_⟩
  · have := Nat.mod_lt (tail + n - h - 1) hn
    omega
  · have heq : (h + ((tail + n - h - 1) % n + 1)) % n = tail := by
      calc (h + ((tail + n - h - 1) % n + 1)) % n
          = ((h + 1) + (tail + n - h - 1) % n) % n := by congr 1; omega
        _ = ((h + 1) + (tail + n - h - 1)) % n := Nat.add_mod_mod _ _ _
        _ = (tail + n) % n := by congr 1; omega
        _ = tail % n := Nat.add_mod_right tail n
        _ = tail := Nat.mod_eq_of_lt htail
    rw [heq]
    simp [slideStop]

/-- C5 amended: pop blocks exactly while the head slot is empty; a
successful pop removes and returns the value stored at the head slot (the
value at key start), strictly increases start (hence successive pops
return values at strictly increasing keys, from the initial start), and
advances start past immediately following empty slots, stopping as soon
as the new head slot is occupied or the head reaches the tail marker. -/
theorem C5_amended {T : Type} (w : Win T)
    (hlen : w.items.length = w.size) (hhead : w.head < w.size) (htail : w.tail < w.size) :
    (pop w = none ↔ w.items.getD w.head none = none) ∧
    (∀ v w1, pop w = some (v, w1) →
      w.items.getD w.head none = some v ∧
      w1.items.getD w.head none = none ∧
      w.start < w1.start ∧ w1.start ≤ w.start + w.size ∧
      w1.tail = w.tail ∧ w1.size = w.size ∧ w1.items.length = w.items.length ∧
      w1.head = (w.head + (w1.start - w.start)) % w.size ∧
      (∀ i, 1 ≤ i → i < w1.start - w.start →
        w.items.getD ((w.head + i) % w.size) none = none) ∧
      (w1.head = w.tail ∨ (w1.items.getD w1.head none).isSome)) := by
  have hL : 0 < w.items.length := by omega
  have hheadL : w.head < w.items.length := by omega
  have htailL : w.tail < w.items.length := by omega
  cases hget : w.items.getD w.head none with
  | none =>
    have h0 : inner_remove w 0 = .missing := by
      rw [inner_remove_unfold, if_pos (by omega : 0 + w.head < w.items.length)]
      rw [Nat.zero_add, hget]
    constructor
    · constructor
      · intro _
        rfl
      · intro _
        simp [pop, h0]
    · intro v w1 hpop
      rw [pop, h0] at hpop
      simp at hpop
  | some v0 =>
    have h0 : inner_remove w 0 = .removed v0 { w with
        items := w.items.set w.head none
        head := (slideLoop (w.items.set w.head none) w.tail
          w.items.length w.items.length w.head).1
        start := w.start + (slideLoop (w.items.set w.head none) w.tail
          w.items.length w.items.length w.head).2 } := by
      rw [inner_remove_unfold, if_pos (by omega : 0 + w.head < w.items.length)]
      simp only [Nat.zero_add]
      rw [hget]
      simp
    have hpop0 : pop w = some (v0, { w with
        items := w.items.set w.head none
        head := (slideLoop (w.items.set w.head none) w.tail
          w.items.length w.items.length w.head).1
        start := w.start + (slideLoop (w.items.set w.head none) w.tail
          w.items.length w.items.length w.head).2 }) := by
      simp only [pop, h0]
    obtain ⟨hs1, hs2, hs3, hs4, hs5⟩ :=
      slideLoop_spec (w.items.set w.head none) w.tail w.items.length w.items.length w.head
        (slideStop_exists (w.items.set w.head none) w.tail w.items.length w.head hL htailL hheadL)
    set r := slideLoop (w.items.set w.head none) w.tail w.items.length w.items.length w.head
      with hr
    constructor
    · constructor
      · intro hnone
        rw [hpop0] at hnone
        simp at hnone
      · intro hnone
        simp at hnone
    · intro v w1 hpop
      rw [hpop0] at hpop
      have hinj := Option.some.inj hpop
      have hv : v0 = v := congrArg Prod.fst hinj
      have hw : w1 = { w with
          items := w.items.set w.head none
          head := r.1
          start := w.start + r.2 } := (congrArg Prod.snd hinj).symm
      subst hw
      subst hv
      dsimp only
      have hdiff : w.start + r.2 - w.start = r.2 := by omega
      refine ⟨rfl, ?_, by omega, by omega, rfl, rfl, by simp, ?_, ?_, ?_⟩
      · rw [getD_set_self _ _ _ _ hheadL]
      · rw [hdiff, ← hlen]
        exact hs3
      · intro i hi1 hi2
        rw [hdiff] at hi2
        have h5 := hs5 i hi1 hi2
        have hnone := isSome_false_eq_none (or_false_right h5)
        have hne : (w.head + i) % w.items.length ≠ w.head :=
          add_mod_ne_self hheadL (by omega) (by omega)
        rw [getD_set_of_ne none none w.items w.head ((w.head + i) % w.items.length)
          (Ne.symm hne)] at hnone
        rw [← hlen]
        exact hnone
      · rcases Bool.or_eq_true_iff.mp hs4 with ha | hb
        · exact Or.inl (by simpa using ha)
        · exact Or.inr hb

/-- C5 witness: a capacity-4 window holding values at keys 0 and 1; pop
returns the value at key 0 (the head slot) and strictly advances start. -/
theorem C5_witness :
    (⟨[some 7, some 8, none, none], 0, 2, 0, 4⟩ : Win Nat).items.getD 0 none = some 7 ∧
    ∀ v w1, pop (⟨[some 7, some 8, none, none], 0, 2, 0, 4⟩ : Win Nat) = some (v, w1) →
      (⟨[some 7, some 8, none, none], 0, 2, 0, 4⟩ : Win Nat).items.getD 0 none = some v ∧
      0 < w1.start := by
  have h := C5_amended (⟨[some 7, some 8, none, none], 0, 2, 0, 4⟩ : Win Nat)
    (by decide) (by decide) (by decide)
  refine ⟨by decide, ?_⟩
  intro v w1 hpop
  obtain ⟨h1, -, h3, -⟩ := h.2 v w1 hpop
  exact ⟨h1, h3⟩

lemma chunksGo_len_le : ∀ (fuel : Nat) (xs c : List Nat),
    c ∈ chunksGo fuel xs → c.length ≤ MAX_PAYLOAD_SIZE := by
  intro fuel
  induction fuel with
  | zero =>
    intro xs c hc
    cases xs <;> simp [chunksGo] at hc
  | succ fuel ih =>
    intro xs c hc
    cases xs with
    | nil => simp [chunksGo] at hc
    | cons x rest =>
      simp only [chunksGo, List.mem_cons] at hc
      rcases hc with h | h
      · subst h
        simp [List.length_take]
      · exact ih _ _ h

lemma chunksGo_flat : ∀ (fuel : Nat) (xs : List Nat), xs.length ≤ fuel →
    (chunksGo fuel xs).flatten = xs := by
  intro fuel
  induction fuel with
  | zero =>
    intro xs hx
    cases xs with
    | nil => simp [chunksGo]
    | cons x rest => simp at hx
  | succ fuel ih =>
    intro xs hx
    cases xs with
    | nil => simp [chunksGo]
    | cons x rest =>
      have hdrop : ((x :: rest).drop MAX_PAYLOAD_SIZE).length ≤ fuel := by
        simp only [List.length_drop, List.length_cons, MAX_PAYLOAD_SIZE]
        simp only [List.length_cons] at hx
        omega
      simp only [chunksGo, List.flatten_cons]
      rw [ih _ hdrop, List.take_append_drop]

lemma msgsFrom_seqs : ∀ (cs : List (List Nat)) (s : Nat),
    (msgsFrom s cs).map Msg.seq = List.range' s cs.length := by
  intro cs
  induction cs with
  | nil => intro s; rfl
  | cons c cs ih =>
    intro s
    simp only [msgsFrom, List.map_cons, List.length_cons, List.range'_succ]
    rw [ih]

lemma msgsFrom_payloads : ∀ (cs : List (List Nat)) (s : Nat),
    (msgsFrom s cs).map Msg.payload = cs.map some := by
  intro cs
  induction cs with
  | nil => intro s; rfl
  | cons c cs ih =>
    intro s
    simp only [msgsFrom, List.map_cons]
    rw [ih]

lemma slotOf_congr {T U : Type} (w : Win T) (w1 : Win U)
    (hs : w1.start = w.start) (hh : w1.head = w.head)
    (hl : w1.items.length = w.items.length) (k : Nat) : slotOf w1 k = slotOf w k := by
  unfold slotOf
  rw [hs, hh, hl]

lemma slotOf_inj {T : Type} (w : Win T) (hlen : w.items.length = w.size) {k1 k2 : Nat}
    (h1a : w.start ≤ k1) (h1b : k1 < w.start + w.size)
    (h2a : w.start ≤ k2) (h2b : k2 < w.start + w.size)
    (hne : k1 ≠ k2) : slotOf w k1 ≠ slotOf w k2 := by
  intro heq
  unfold slotOf at heq
  have hcan : k1 - w.start ≡ k2 - w.start [MOD w.items.length] :=
    Nat.ModEq.add_right_cancel' w.head heq
  have e1 : (k1 - w.start) % w.items.length = k1 - w.start := Nat.mod_eq_of_lt (by omega)
  have e2 : (k2 - w.start) % w.items.length = k2 - w.start := Nat.mod_eq_of_lt (by omega)
  have h := hcan
  unfold Nat.ModEq at h
  rw [e1, e2] at h
  omega

lemma write_all_go_spec (now : Nat) :
    ∀ (cs : List (List Nat)) (seq : Nat) (w : Win (Nat × Msg)),
      w.items.length = w.size →
      w.start ≤ seq →
      seq + cs.length ≤ w.start + w.size →
      (∀ i, i < cs.length → w.items.getD (slotOf w (seq + i)) none = none) →
      ∃ w2, write_all_go now cs seq w = some (msgsFrom seq cs, seq + cs.length, w2) ∧
        w2.start = w.start ∧ w2.head = w.head ∧ w2.size = w.size ∧
        w2.items.length = w.items.length ∧
        (∀ i, i < cs.length →
          w2.items.getD (slotOf w (seq + i)) none
            = some (now, ⟨.message, seq + i, some (cs.getD i [])⟩)) ∧
        (∀ j, (∀ i, i < cs.length → j ≠ slotOf w (seq + i)) →
          w2.items.getD j none = w.items.getD j none) := by
  intro cs
  induction cs with
  | nil =>
    intro seq w hlen hge hroom hfree
    refine ⟨w, by simp [write_all_go, msgsFrom], rfl, rfl, rfl, rfl, ?_, ?_⟩
    · intro i hi
      simp at hi
    · intro j _
      rfl
  | cons c cs ih =>
    intro seq w hlen hge hroom hfree
    have hlc : (c :: cs).length = cs.length + 1 := rfl
    have hsz : 0 < w.size := by omega
    have hL : 0 < w.items.length := by omega
    have hidx : slotOf w seq < w.items.length := Nat.mod_lt _ hL
    have hfree0 : w.items.getD (slotOf w seq) none = none := by
      have h := hfree 0 (by omega)
      simpa using h
    have hnotSome : ¬ (w.items.getD (slotOf w seq) none).isSome = true := by
      rw [hfree0]
      simp
    have hins : insert w seq (now, ⟨.message, seq, some c⟩) = some (.ok { w with
        items := w.items.set (slotOf w seq) (some (now, ⟨.message, seq, some c⟩))
        tail := if w.tail ≤ slotOf w seq then (slotOf w seq + 1) % w.items.length
          else w.tail }) := by
      rw [insert_unfold, if_neg (by omega), if_neg (by omega), if_neg hnotSome]
    set wIns : Win (Nat × Msg) := { w with
        items := w.items.set (slotOf w seq) (some (now, ⟨.message, seq, some c⟩))
        tail := if w.tail ≤ slotOf w seq then (slotOf w seq + 1) % w.items.length
          else w.tail } with hwIns
    have hInsLen : wIns.items.length = w.items.length := by
      simp [hwIns, List.length_set]
    have hslotCongr : ∀ k, slotOf wIns k = slotOf w k := fun k =>
      slotOf_congr w wIns rfl rfl hInsLen k
    have hInsFree : ∀ i, i < cs.length →
        wIns.items.getD (slotOf wIns (seq + 1 + i)) none = none := by
      intro i hi
      rw [hslotCongr]
      have hkey : seq + 1 + i = seq + (i + 1) := by omega
      have hne : slotOf w seq ≠ slotOf w (seq + 1 + i) := by
        apply slotOf_inj w hlen hge (by omega) (by omega) (by omega)
        omega
      show (w.items.set (slotOf w seq) (some (now, ⟨.message, seq, some c⟩))).getD
        (slotOf w (seq + 1 + i)) none = none
      rw [getD_set_of_ne _ _ _ _ _ hne]
      rw [hkey]
      exact hfree (i + 1) (by omega)
    have hInsStart : wIns.start = w.start := rfl
    have hInsSize : wIns.size = w.size := rfl
    obtain ⟨w2, hgo, hstart2, hhead2, hsize2, hlen2, hrec2, hframe2⟩ :=
      ih (seq + 1) wIns (by rw [hInsLen, hInsSize]; exact hlen)
        (by rw [hInsStart]; omega)
        (by rw [hInsStart, hInsSize]; omega) hInsFree
    refine ⟨w2, ?_, by rw [hstart2], by rw [hhead2], by rw [hsize2],
      by rw [hlen2, hInsLen], ?_, ?_⟩
    · simp only [write_all_go, hins, hgo, msgsFrom, List.length_cons,
        Option.some.injEq, Prod.mk.injEq]
      refine ⟨?_, by omega, ?_⟩ <;> trivial
    · intro i hi
      cases i with
      | zero =>
        have hjneq : ∀ i2, i2 < cs.length → slotOf w seq ≠ slotOf wIns (seq + 1 + i2) := by
          intro i2 hi2
          rw [hslotCongr]
          apply slotOf_inj w hlen hge (by omega) (by omega) (by omega)
          omega
        have hfr := hframe2 (slotOf w seq) hjneq
        have hset : wIns.items.getD (slotOf w seq) none
            = some (now, ⟨.message, seq, some c⟩) := by
          show (w.items.set (slotOf w seq) (some (now, ⟨.message, seq, some c⟩))).getD
            (slotOf w seq) none = some (now, ⟨.message, seq, some c⟩)
          exact getD_set_self _ _ _ _ hidx
        show w2.items.getD (slotOf w (seq + 0)) none
          = some (now, ⟨.message, seq + 0, some ((c :: cs).getD 0 [])⟩)
        rw [Nat.add_zero]
        rw [hfr, hset]
        rfl
      | succ i2 =>
        have hi2 : i2 < cs.length := by
          simp at hi
          omega
        have h := hrec2 i2 hi2
        rw [hslotCongr] at h
        have hkey : seq + 1 + i2 = seq + (i2 + 1) := by omega
        rw [hkey] at h
        rw [h]
        rfl
    · intro j hj
      have hj2 : ∀ i, i < cs.length → j ≠ slotOf wIns (seq + 1 + i) := by
        intro i hi
        rw [hslotCongr]
        have hkey : seq + 1 + i = seq + (i + 1) := by omega
        rw [hkey]
        exact hj (i + 1) (by omega)
      have hfr := hframe2 j hj2
      rw [hfr]
      have hjslot : j ≠ slotOf w seq := by
        have := hj 0 (by omega)
        simpa using this
      show (w.items.set (slotOf w seq) (some (now, ⟨.message, seq, some c⟩))).getD j none
        = w.items.getD j none
      exact getD_set_of_ne _ _ _ _ _ (Ne.symm hjslot)

/-- C7: write_all splits the bytes into chunks of at most MAX_PAYLOAD_SIZE
which concatenate back to the input; under the sender invariant (keys fresh
and in window) it emits one data message per chunk carrying consecutive
sequence numbers from the running seq_num and the chunks as payloads in
order, records (now, message) in the window at each key, and returns with
seq_num advanced by the number of chunks (so across calls, and from the
initial seq_num 0 set by connect, data messages are numbered
consecutively). -/
theorem C7_write_all_spec (now seq : Nat) (w : Win (Nat × Msg)) (bytes : List Nat)
    (hlen : w.items.length = w.size)
    (hge : w.start ≤ seq)
    (hroom : seq + (chunksOf bytes).length ≤ w.start + w.size)
    (hfree : ∀ i, i < (chunksOf bytes).length →
      w.items.getD (slotOf w (seq + i)) none = none) :
    (∀ c, c ∈ chunksOf bytes → c.length ≤ MAX_PAYLOAD_SIZE) ∧
    (chunksOf bytes).flatten = bytes ∧
    (∀ s cs, (msgsFrom s cs).map Msg.seq = List.range' s cs.length) ∧
    (∀ s cs, (msgsFrom s cs).map Msg.payload = cs.map some) ∧
    ∃ w2, write_all now seq w bytes
        = some (msgsFrom seq (chunksOf bytes), seq + (chunksOf bytes).length, w2) ∧
      w2.start = w.start ∧ w2.head = w.head ∧
      (∀ i, i < (chunksOf bytes).length →
        w2.items.getD (slotOf w (seq + i)) none
          = some (now, ⟨.message, seq + i, some ((chunksOf bytes).getD i [])⟩)) := by
  obtain ⟨w2, hgo, h1, h2, h3, h4, h5, h6⟩ :=
    write_all_go_spec now (chunksOf bytes) seq w hlen hge hroom hfree
  exact ⟨fun c hc => chunksGo_len_le _ _ _ hc,
    chunksGo_flat _ _ (Nat.le_refl _),
    fun s cs => msgsFrom_seqs cs s,
    fun s cs => msgsFrom_payloads cs s,
    w2, hgo, h1, h2, h5⟩

/-- C7 witness: from a fresh capacity-4 window with seq_num 0, write_all on
three bytes sends the expected messages and advances seq_num. -/
theorem C7_witness :
    ∃ w2, write_all 5 0 (new 4 : Win (Nat × Msg)) [1, 2, 3]
        = some (msgsFrom 0 (chunksOf [1, 2, 3]), 0 + (chunksOf [1, 2, 3]).length, w2) ∧
      w2.start = (new 4 : Win (Nat × Msg)).start := by
  obtain ⟨-, -, -, -, w2, hw, hs, -⟩ :=
    C7_write_all_spec 5 0 (new 4) [1, 2, 3] (by decide) (by decide) (by decide) (by decide)
  exact ⟨w2, hw, hs⟩

end QCP
